import Mathlib

/-!
Verification development for the HTML → Office (OOXML) conversion pipeline.

The program is embedded shallowly: strings are modelled as `List Char`
(the Rust code indexes UTF-8 bytes but every index it uses lies on a
character boundary and every step advances by whole characters, so a
character-list model is observationally equivalent); the parsed HTML DOM
is an inductive tree; HTML parsing itself (the `html5ever` library) is
kept abstract as a `parse : List Char → List Dom` parameter producing the
body children of a document, and concrete theorems instantiate it with
explicit lookup tables whose entries record what the parser returns on
the specific strings involved.  Scanning loops that advance a cursor by a
computed amount are written with an explicit fuel argument; the fuel is
always instantiated with `length + 1`, which is sufficient because every
iteration advances the cursor by at least one character, and on fuel
exhaustion the functions return exactly what the loop's normal exit
returns.  Rust `Vec::push` is modelled by appending at the right end of a
list, `HashMap` lookup by last-match association-list lookup (the HTML
parser deduplicates attribute names, so the distinction is immaterial),
and `BTreeMap` lookup by first-match lookup on a list with unique keys.
-/

/-- Whitespace test used throughout; `Char.isWhitespace` covers the ASCII
whitespace characters space, tab, carriage return and line feed, which is
what every input considered here contains. -/
def isWsCh (c : Char) : Bool := c.isWhitespace

/-- ASCII whitespace as used by Rust `u8::is_ascii_whitespace` in the
currency guard (space, tab, newline, form feed, carriage return). -/
def isAsciiWs (c : Char) : Bool :=
  c = ' ' || c = '\t' || c = '\n' || c = Char.ofNat 12 || c = '\r'

/-- ASCII lowercasing of a character, as Rust `to_ascii_lowercase`. -/
def lowerCh (c : Char) : Char := c.toLower

/-- ASCII lowercasing of a string, as Rust `str::to_ascii_lowercase`. -/
def lowerStr (s : List Char) : List Char := s.map lowerCh

/-- Boolean prefix test between character lists. -/
def prefixOf : List Char → List Char → Bool
  | [], _ => true
  | _ :: _, [] => false
  | a :: as, b :: bs => a = b && prefixOf as bs

/-- Boolean substring test, as Rust `str::contains` for string patterns. -/
def containsSub : List Char → List Char → Bool
  | s, pat =>
    match s with
    | [] => prefixOf pat []
    | _ :: rest => prefixOf pat s || containsSub rest pat

/-- Index of the first occurrence of `pat` in `s`, as Rust `str::find`. -/
def findSub : List Char → List Char → Option Nat
  | [], pat => if pat = [] then some 0 else none
  | c :: rest, pat =>
    if prefixOf pat (c :: rest) then some 0
    else (findSub rest pat).map (· + 1)

/-- Index of the first occurrence of character `c`, as `iter().position`. -/
def findCharOff (c : Char) : List Char → Option Nat
  | [] => none
  | d :: rest => if d = c then some 0 else (findCharOff c rest).map (· + 1)

/-- The slice `s[a..b]` of a character list. -/
def sliceCh (s : List Char) (a b : Nat) : List Char := (s.drop a).take (b - a)

/-- Fuel-driven body of `replaceAll`; the fuel bounds the number of scan
steps and `length + 1` always suffices. -/
def replaceAllF : Nat → List Char → List Char → List Char → List Char
  | 0, s, _, _ => s
  | _ + 1, [], _, _ => []
  | fuel + 1, c :: rest, pat, rep =>
    if pat ≠ [] ∧ prefixOf pat (c :: rest) then
      rep ++ replaceAllF fuel (List.drop (pat.length - 1) rest) pat rep
    else
      c :: replaceAllF fuel rest pat rep

/-- Replacement of every non-overlapping occurrence of `pat` by `rep`,
scanning left to right, as Rust `str::replace` (all call sites in the
embedded program use a non-empty pattern). -/
def replaceAll (s pat rep : List Char) : List Char :=
  replaceAllF (s.length + 1) s pat rep

/-- Replacement of one character by another everywhere, as Rust
`str::replace` with a `char` pattern. -/
def replaceCh (s : List Char) (c : Char) (rep : List Char) : List Char :=
  s.flatMap (fun d => if d = c then rep else [d])

/-- Leading-whitespace removal, as Rust `str::trim_start`. -/
def trimL (s : List Char) : List Char := s.dropWhile isWsCh

/-- Trailing-whitespace removal, as Rust `str::trim_end`. -/
def trimR (s : List Char) : List Char := (s.reverse.dropWhile isWsCh).reverse

/-- Whitespace trimming at both ends, as Rust `str::trim`. -/
def trimStr (s : List Char) : List Char := trimR (trimL s)

/-- Split at every occurrence of the character `sep`, as Rust
`str::split(char)`: `n` separators yield `n + 1` pieces. -/
def splitOnCh (sep : Char) : List Char → List (List Char)
  | [] => [[]]
  | c :: rest =>
    let r := splitOnCh sep rest
    if c = sep then [] :: r
    else
      match r with
      | [] => [[c]]
      | p :: ps => (c :: p) :: ps

/-- Decimal digit characters of a natural number (fuel-driven). -/
def natCharsF : Nat → Nat → List Char
  | 0, _ => []
  | fuel + 1, n =>
    if n < 10 then [Char.ofNat (48 + n)]
    else natCharsF fuel (n / 10) ++ [Char.ofNat (48 + n % 10)]

/-- Decimal representation of a natural number, as Rust `usize` display. -/
def natChars (n : Nat) : List Char := natCharsF (n + 1) n

/-- Number of positions at which `pat` occurs in `s` (used to count XML
elements in serializer output). -/
def countSub : List Char → List Char → Nat
  | [], _ => 0
  | c :: rest, pat =>
    (if prefixOf pat (c :: rest) then 1 else 0) + countSub rest pat

/-- Comma join of pieces, as the diagnostic-comment building loop that
inserts a comma before every piece except the first. -/
def commaJoin : List (List Char) → List Char
  | [] => []
  | x :: xs => x ++ xs.flatMap (fun y => ',' :: y)

/-- Last-match association-list lookup, modelling Rust `HashMap` built by
`collect` (later duplicates overwrite earlier ones). -/
def mapGet (attrs : List (List Char × List Char)) (k : List Char) :
    Option (List Char) :=
  attrs.foldl (fun acc kv => if kv.1 = k then some kv.2 else acc) none

/-- First-match lookup with ASCII-case-insensitive key comparison, as
`attr_get` in the DOCX builder. -/
def attrGetCi (attrs : List (List Char × List Char)) (k : List Char) :
    Option (List Char) :=
  match attrs.find? (fun kv => lowerStr kv.1 = lowerStr k) with
  | some kv => some kv.2
  | none => none

/-! ## OMML namespace / case normalization (docx_from_html/src/main.rs) -/

/-- The legacy Microsoft OMML namespace URI. -/
def msOmmlNs : List Char :=
  "http://schemas.microsoft.com/office/2004/12/omml".data

/-- The OpenXML math namespace URI. -/
def openXmlMathNs : List Char :=
  "http://schemas.openxmlformats.org/officeDocument/2006/math".data

/-- Namespace rewrite `normalize_omml_namespace`: replaces the legacy
Microsoft OMML namespace URI by the OpenXML math namespace URI. -/
def normalizeOmmlNamespace (xml : List Char) : List Char :=
  replaceAll xml msOmmlNs openXmlMathNs

/-- Case normalization `normalize_omml_case`: for each entry of the fix
table (`omathpara`, `omath`, `ssubsup`, `ssub`, `ssup`, in source order),
rewrites the opening form `<m:from` and the closing form `</m:from`; the
source loop is unrolled here. -/
def normalizeOmmlCase (xml : List Char) : List Char :=
  let s1 := replaceAll xml "<m:omathpara".data "<m:oMathPara".data
  let s2 := replaceAll s1 "</m:omathpara".data "</m:oMathPara".data
  let s3 := replaceAll s2 "<m:omath".data "<m:oMath".data
  let s4 := replaceAll s3 "</m:omath".data "</m:oMath".data
  let s5 := replaceAll s4 "<m:ssubsup".data "<m:sSubSup".data
  let s6 := replaceAll s5 "</m:ssubsup".data "</m:sSubSup".data
  let s7 := replaceAll s6 "<m:ssub".data "<m:sSub".data
  let s8 := replaceAll s7 "</m:ssub".data "</m:sSub".data
  let s9 := replaceAll s8 "<m:ssup".data "<m:sSup".data
  replaceAll s9 "</m:ssup".data "</m:sSup".data

/-- The composite normalization as applied at OMML ingestion
(`comment_extract_ms_equation_omml` computes
`normalize_omml_namespace(normalize_omml_case(xml))`). -/
def normalizeOmmlFull (xml : List Char) : List Char :=
  normalizeOmmlNamespace (normalizeOmmlCase xml)

/-- Every pattern the composite normalization searches for: the legacy
namespace URI and the ten lowercase OMML tag-name forms. -/
def ommlNormPats : List (List Char) :=
  [msOmmlNs,
   "<m:omathpara".data, "</m:omathpara".data,
   "<m:omath".data, "</m:omath".data,
   "<m:ssubsup".data, "</m:ssubsup".data,
   "<m:ssub".data, "</m:ssub".data,
   "<m:ssup".data, "</m:ssup".data]

/-! ## Placeholder markers and office_apply_mathml (pipeline.rs) -/

/-- One formula extraction request, as `TexJob`. -/
structure TexJob where
  id : Nat
  latex : List Char
  display : Bool
deriving DecidableEq, Repr

/-- The hand-off artifact of the extraction phase, as `PreparedOffice`. -/
structure PreparedOffice where
  html : List Char
  jobs : List TexJob
deriving DecidableEq, Repr

/-- The comment token `<!--COF_TEX_<id>-->` of a placeholder marker. -/
def markerOf (id : Nat) : List Char :=
  "<!--COF_TEX_".data ++ natChars id ++ "-->".data

/-- The placeholder markup `placeholder_for`: the marker comment wrapped
in a span so it survives inline contexts. -/
def placeholderFor (id : Nat) (display : Bool) : List Char :=
  if display then
    "<span class=\"cof-math-block\">".data ++ markerOf id ++ "</span>".data
  else
    "<span class=\"cof-math-inline\">".data ++ markerOf id ++ "</span>".data

/-- The marker head `<!--COF_TEX_` whose presence gates substitution. -/
def markerHead : List Char := "<!--COF_TEX_".data

/-- The terminal diagnostic comment listing missing placeholder ids. -/
def warnComment (missing : List Nat) : List Char :=
  "<!--COF_WARN_MISSING_PLACEHOLDER:".data
    ++ commaJoin (missing.map natChars) ++ "-->".data

/-- Splitting of the joined MathML argument on U+001F, guarded on the
empty string, as in `office_apply_mathml`. -/
def mathmlParts (joined : List Char) : List (List Char) :=
  if joined = [] then [] else splitOnCh (Char.ofNat 31) joined

/-- One iteration of the substitution loop of `office_apply_mathml`
(lib variant): a missing marker is recorded and skipped, a present marker
is replaced everywhere. -/
def officeApplyStep (st : List Char × List Nat) (part : Nat × List Char) :
    List Char × List Nat :=
  if containsSub st.1 (markerOf part.1) then
    (replaceAll st.1 (markerOf part.1) part.2, st.2)
  else
    (st.1, st.2 ++ [part.1])

/-- The whole substitution loop of `office_apply_mathml`, returning the
rewritten HTML and the list of missing ids in encounter order. -/
def officeApplyCore (html : List Char) (parts : List (List Char)) :
    List Char × List Nat :=
  (parts.enum).foldl officeApplyStep (html, [])

/-- Re-injection `office_apply_mathml` (lib variant,
src/lib/rust/tex_to_mathml_wasm/src/pipeline.rs): returns the input
unchanged when no marker head occurs, otherwise substitutes every present
marker and appends a diagnostic comment when some ids were missing. -/
def officeApplyMathml (html joined : List Char) :
    Except (List Char) (List Char) :=
  if ¬ (containsSub html markerHead = true) then .ok html
  else
    let st := officeApplyCore html (mathmlParts joined)
    .ok (if st.2 = [] then st.1 else st.1 ++ warnComment st.2)

/-! ## LaTeX normalization (normalize.rs) and entity decoding (entities.rs) -/

/-- The apostrophe character (used for entity decoding and CSS strings). -/
def apos : Char := Char.ofNat 39

/-- Zero-width characters removed by `normalize_latex`. -/
def isZeroWidth (c : Char) : Bool :=
  c = Char.ofNat 0x200B || c = Char.ofNat 0x200C || c = Char.ofNat 0x200D
    || c = Char.ofNat 0x2060 || c = Char.ofNat 0xFEFF

/-- LaTeX normalization `normalize_latex`: strips zero-width characters
and rewrites a fixed set of Unicode math glyphs to LaTeX commands. -/
def normalizeLatex (latex : List Char) : List Char :=
  let s0 := latex.filter (fun c => ¬ isZeroWidth c)
  let s1 := replaceCh s0 (Char.ofNat 0x2016) "||".data
  let s2 := replaceCh s1 (Char.ofNat 0xE020) "\\neq".data
  let s3 := replaceCh s2 (Char.ofNat 0x2297) "\\otimes".data
  let s4 := replaceCh s3 (Char.ofNat 0x03F5) "\\epsilon".data
  let s5 := replaceCh s4 (Char.ofNat 0x03D5) "\\phi".data
  let s6 := replaceCh s5 (Char.ofNat 0x2192) "\\to".data
  let s7 := replaceCh s6 (Char.ofNat 0x2260) "\\neq".data
  let s8 := replaceCh s7 (Char.ofNat 0x27E8) "\\langle".data
  replaceCh s8 (Char.ofNat 0x27E9) "\\rangle".data

/-- Value of one digit in the given radix, accepting the ASCII digit and
letter ranges used by Rust `from_str_radix`. -/
def digitVal (radix : Nat) (c : Char) : Option Nat :=
  let v :=
    if '0' ≤ c ∧ c ≤ '9' then some (c.toNat - 48)
    else if 'a' ≤ c ∧ c ≤ 'z' then some (c.toNat - 97 + 10)
    else if 'A' ≤ c ∧ c ≤ 'Z' then some (c.toNat - 65 + 10)
    else none
  match v with
  | some d => if d < radix then some d else none
  | none => none

/-- Unsigned integer parsing in a radix, as Rust `u32::from_str_radix`:
an optional leading plus sign, at least one digit, and failure on
overflow past the `u32` range. -/
def parseRadix (radix : Nat) (s : List Char) : Option Nat :=
  let body := if prefixOf "+".data s then s.drop 1 else s
  if body = [] then none
  else
    match body.foldl
        (fun acc c =>
          match acc, digitVal radix c with
          | some n, some d => some (n * radix + d)
          | _, _ => none)
        (some 0) with
    | some n => if n < 2 ^ 32 then some n else none
    | none => none

/-- Unicode scalar test, as Rust `char::from_u32` success. -/
def isScalarNat (n : Nat) : Bool :=
  n < 0xD800 || (0xE000 ≤ n && n < 0x110000)

/-- Decoding of one entity body (the text between `&` and `;`), as the
match in `decode_entities`. -/
def entityDecode (ent : List Char) : Option Char :=
  if ent = "amp".data then some '&'
  else if ent = "lt".data then some '<'
  else if ent = "gt".data then some '>'
  else if ent = "quot".data then some '"'
  else if ent = "#39".data then some apos
  else if ent = "#x27".data ∨ ent = "#X27".data then some apos
  else if prefixOf "#x".data ent ∨ prefixOf "#X".data ent then
    match parseRadix 16 (ent.drop 2) with
    | some n => if isScalarNat n then some (Char.ofNat n) else none
    | none => none
  else if prefixOf "#".data ent then
    match parseRadix 10 (ent.drop 1) with
    | some n => if isScalarNat n then some (Char.ofNat n) else none
    | none => none
  else none

/-- Fuel-driven loop of `decode_entities`; each iteration advances the
cursor by at least one character, so `length + 1` fuel suffices. -/
def decodeEntF : Nat → List Char → Nat → List Char → List Char
  | 0, _, _, out => out
  | fuel + 1, s, i, out =>
    if i < s.length then
      let c := s.getD i default
      if c ≠ '&' then decodeEntF fuel s (i + 1) (out ++ [c])
      else
        match findCharOff ';' (s.drop i) with
        | none => decodeEntF fuel s (i + 1) (out ++ ['&'])
        | some d =>
          let semi := i + d
          match entityDecode (sliceCh s (i + 1) semi) with
          | some ch => decodeEntF fuel s (semi + 1) (out ++ [ch])
          | none => decodeEntF fuel s (semi + 1) (out ++ sliceCh s i (semi + 1))
    else out

/-- Minimal HTML entity decoding `decode_entities` (the Rust fast path
pushes bytes as characters; on the ASCII inputs considered here that is
the identity on characters, which is what the model does). -/
def decodeEntities (s : List Char) : List Char :=
  decodeEntF (s.length + 1) s 0 []

/-! ## The parsed DOM -/

/-- A parsed HTML node as the walks observe it: text, comment, or element
with attributes and children.  Doctype and processing-instruction nodes
contribute nothing to any walk and never occur among body children of the
inputs considered, so they are omitted; `Document` nodes only appear at
the root, above the body children the walks receive. -/
inductive Dom where
  | text (s : List Char)
  | comment (s : List Char)
  | elem (tag : List Char) (attrs : List (List Char × List Char))
      (children : List Dom)

/-- Children of a node (non-elements have none). -/
def Dom.childrenOf : Dom → List Dom
  | .elem _ _ cs => cs
  | _ => []

/-- Lowercased tag name of an element node, as `tag_lower`. -/
def Dom.tagLowerOf : Dom → Option (List Char)
  | .elem tag _ _ => some (lowerStr tag)
  | _ => none

/-- Void-element test `is_void` of the serializers. -/
def isVoidTag (tag : List Char) : Bool :=
  let t := lowerStr tag
  t = "br".data || t = "hr".data || t = "img".data || t = "meta".data
    || t = "link".data || t = "input".data

/-- Text escaping `esc_text` (ampersand, less-than, greater-than). -/
def escText (s : List Char) : List Char :=
  s.flatMap (fun c =>
    if c = '&' then "&amp;".data
    else if c = '<' then "&lt;".data
    else if c = '>' then "&gt;".data
    else [c])

/-- Attribute escaping `esc_attr` (also escapes double quotes). -/
def escAttr (s : List Char) : List Char :=
  s.flatMap (fun c =>
    if c = '&' then "&amp;".data
    else if c = '<' then "&lt;".data
    else if c = '>' then "&gt;".data
    else if c = '"' then "&quot;".data
    else [c])

/-- Attribute serialization used by both pipeline walks: a space, the raw
key, and the escaped value in double quotes. -/
def serAttrs (attrs : List (List Char × List Char)) : List Char :=
  attrs.flatMap (fun kv =>
    " ".data ++ kv.1 ++ "=\"".data ++ escAttr kv.2 ++ "\"".data)

/-! ## Text-math scanning (emit_text_with_tex_placeholders, lib variant) -/

/-- Currency test `is_currency_like_inline_dollar`: blank, or only ASCII
digits, commas and periods after trimming. -/
def isCurrencyLike (inner : List Char) : Bool :=
  let t := trimStr inner
  t = [] || t.all (fun c => c.isDigit || c = ',' || c = '.')

/-- Length of the run of characters that are neither ASCII whitespace nor
a dollar sign (the currency-guard lookahead loop). -/
def spanNonWsDollar : List Char → Nat
  | [] => 0
  | c :: rest =>
    if isAsciiWs c || c = '$' then 0 else 1 + spanNonWsDollar rest

/-- Offset of the next non-escaped dollar sign; `prev` carries the
character before the scan position for the backslash-escape test. -/
def findDollarOff (prev : Char) : List Char → Option Nat
  | [] => none
  | c :: rest =>
    if c = '$' ∧ prev ≠ '\\' then some 0
    else (findDollarOff c rest).map (· + 1)

/-- Fuel-driven main loop of `emit_text_with_tex_placeholders` (lib
variant, with the currency guardrail).  `i` is the scan position, `last`
the start of the pending literal region; both count characters.  Every
iteration advances `i` by at least one, so `length + 1` fuel suffices;
the fuel-exhausted result equals the loop's normal exit. -/
def emitLoopF : Nat → List Char → Nat → Nat → List Char → List TexJob →
    List Char × List TexJob
  | 0, text, _, last, out, jobs => (out ++ escText (text.drop last), jobs)
  | fuel + 1, text, i, last, out, jobs =>
    if i < text.length then
      let tl := text.drop i
      if prefixOf "$$".data tl then
        match findSub (text.drop (i + 2)) "$$".data with
        | some r =>
          let e := i + 2 + r
          let out1 := out ++ escText (sliceCh text last i)
          let latex := normalizeLatex (decodeEntities (trimStr (sliceCh text (i + 2) e)))
          if trimStr latex ≠ [] then
            emitLoopF fuel text (e + 2) (e + 2)
              (out1 ++ placeholderFor jobs.length true)
              (jobs ++ [⟨jobs.length, latex, true⟩])
          else
            emitLoopF fuel text (e + 2) (e + 2)
              (out1 ++ escText (sliceCh text i (e + 2))) jobs
        | none => emitLoopF fuel text (i + 1) last out jobs
      else if prefixOf "\\[".data tl then
        match findSub (text.drop (i + 2)) "\\]".data with
        | some r =>
          let e := i + 2 + r
          let out1 := out ++ escText (sliceCh text last i)
          let latex := normalizeLatex (decodeEntities (trimStr (sliceCh text (i + 2) e)))
          if trimStr latex ≠ [] then
            emitLoopF fuel text (e + 2) (e + 2)
              (out1 ++ placeholderFor jobs.length true)
              (jobs ++ [⟨jobs.length, latex, true⟩])
          else
            emitLoopF fuel text (e + 2) (e + 2)
              (out1 ++ escText (sliceCh text i (e + 2))) jobs
        | none => emitLoopF fuel text (i + 1) last out jobs
      else if prefixOf "\\(".data tl then
        match findSub (text.drop (i + 2)) "\\)".data with
        | some r =>
          let e := i + 2 + r
          let out1 := out ++ escText (sliceCh text last i)
          let latex := normalizeLatex (decodeEntities (trimStr (sliceCh text (i + 2) e)))
          if trimStr latex ≠ [] then
            emitLoopF fuel text (e + 2) (e + 2)
              (out1 ++ placeholderFor jobs.length false)
              (jobs ++ [⟨jobs.length, latex, false⟩])
          else
            emitLoopF fuel text (e + 2) (e + 2)
              (out1 ++ escText (sliceCh text i (e + 2))) jobs
        | none => emitLoopF fuel text (i + 1) last out jobs
      else if text.getD i default = '$' then
        if 0 < i ∧ text.getD (i - 1) default = '\\' then
          emitLoopF fuel text (i + 1) last out jobs
        else
          let off := spanNonWsDollar (text.drop (i + 1))
          let k := i + 1 + off
          if 0 < off ∧ k < text.length ∧ isAsciiWs (text.getD k default)
              ∧ isCurrencyLike (sliceCh text (i + 1) k) then
            emitLoopF fuel text (i + 1) last out jobs
          else
            match findDollarOff '$' (text.drop (i + 1)) with
            | some doff =>
              let j := i + 1 + doff
              let inner := sliceCh text (i + 1) j
              if ¬ isCurrencyLike inner then
                let out1 := out ++ escText (sliceCh text last i)
                let latex := normalizeLatex (decodeEntities (trimStr inner))
                if trimStr latex ≠ [] then
                  emitLoopF fuel text (j + 1) (j + 1)
                    (out1 ++ placeholderFor jobs.length false)
                    (jobs ++ [⟨jobs.length, latex, false⟩])
                else emitLoopF fuel text (i + 1) last out1 jobs
              else emitLoopF fuel text (i + 1) last out jobs
            | none => emitLoopF fuel text (i + 1) last out jobs
      else emitLoopF fuel text (i + 1) last out jobs
    else (out ++ escText (text.drop last), jobs)

/-- Entry point `emit_text_with_tex_placeholders`: appends to `out` and
`jobs` while scanning the whole text. -/
def emitTextWithTex (out : List Char) (text : List Char)
    (jobs : List TexJob) : List Char × List TexJob :=
  emitLoopF (text.length + 1) text 0 0 out jobs

/-! ## Pass 2: inject_text_math_placeholders_in_sanitized_html -/

mutual

/-- Walk of the text-driven pass: serializes the node back to HTML while
scanning text nodes (outside `code`/`pre`) for math delimiters.  State is
the pair (output, jobs). -/
def injWalk (d : Dom) (inCode : Bool) (st : List Char × List TexJob) :
    List Char × List TexJob :=
  match d with
  | .text s => if inCode then (st.1 ++ escText s, st.2) else emitTextWithTex st.1 s st.2
  | .comment c => (st.1 ++ "<!--".data ++ c ++ "-->".data, st.2)
  | .elem tag attrs cs =>
    let tagL := lowerStr tag
    let nowInCode := inCode || tagL = "code".data || tagL = "pre".data
    let o1 := st.1 ++ "<".data ++ tag ++ serAttrs attrs
    if isVoidTag tag then (o1 ++ "/>".data, st.2)
    else
      let st2 := injWalkList cs nowInCode (o1 ++ ">".data, st.2)
      (st2.1 ++ "</".data ++ tag ++ ">".data, st2.2)

/-- Left-to-right walk over sibling nodes for the text-driven pass. -/
def injWalkList (l : List Dom) (inCode : Bool)
    (st : List Char × List TexJob) : List Char × List TexJob :=
  match l with
  | [] => st
  | d :: rest => injWalkList rest inCode (injWalk d inCode st)

end

/-- The text-driven pass over the body children of the sanitized HTML. -/
def injectTextMath (nodes : List Dom) : List Char × List TexJob :=
  injWalkList nodes false ([], [])

/-! ## Pass 1: replace_data_math_blocks_with_placeholders_dom -/

/-- Content-dropping tags `is_drop_content_tag`. -/
def isDropContentTag (t : List Char) : Bool :=
  t = "script".data || t = "style".data || t = "noscript".data
    || t = "template".data || t = "iframe".data || t = "object".data
    || t = "embed".data || t = "svg".data

/-- Display classification `is_block_math_dom`: block-level tag, or a
class mentioning `math-block` or `katex-display`. -/
def isBlockMathDom (tagL classL : List Char) : Bool :=
  tagL = "div".data || tagL = "p".data || tagL = "li".data
    || tagL = "section".data || tagL = "article".data || tagL = "td".data
    || tagL = "th".data
    || containsSub classL "math-block".data
    || containsSub classL "katex-display".data

mutual

/-- Walk of the attribute-driven pass: an element carrying `data-math`
(outside math subtrees and dropped content) is replaced by a placeholder
and its subtree discarded; everything else is re-serialized. -/
def rdmWalk (d : Dom) (inDrop inMath : Bool)
    (st : List Char × List TexJob) : List Char × List TexJob :=
  match d with
  | .text s => (st.1 ++ escText s, st.2)
  | .comment c => (st.1 ++ "<!--".data ++ c ++ "-->".data, st.2)
  | .elem tag attrs cs =>
    let tagL := lowerStr tag
    if inDrop || isDropContentTag tagL then st
    else
      let nowInMath := inMath || tagL = "math".data
      let dataMath := attrs.foldl
        (fun acc kv =>
          if lowerStr kv.1 = "data-math".data then some (decodeEntities kv.2)
          else acc) none
      let classL := attrs.foldl
        (fun acc kv =>
          if lowerStr kv.1 = "class".data then lowerStr kv.2 else acc) []
      match (if nowInMath then none else dataMath) with
      | some texRaw =>
        let disp := isBlockMathDom tagL classL
        (st.1 ++ placeholderFor st.2.length disp,
         st.2 ++ [⟨st.2.length, normalizeLatex (trimStr texRaw), disp⟩])
      | none =>
        let o1 := st.1 ++ "<".data ++ tag ++ serAttrs attrs
        if isVoidTag tag then (o1 ++ "/>".data, st.2)
        else
          let st2 := rdmWalkList cs false nowInMath (o1 ++ ">".data, st.2)
          (st2.1 ++ "</".data ++ tag ++ ">".data, st2.2)

/-- Left-to-right walk over sibling nodes for the attribute-driven pass
(the drop flag reaching children is always false because dropped subtrees
return before recursing, exactly as in the source). -/
def rdmWalkList (l : List Dom) (inDrop inMath : Bool)
    (st : List Char × List TexJob) : List Char × List TexJob :=
  match l with
  | [] => st
  | d :: rest => rdmWalkList rest inDrop inMath (rdmWalk d inDrop inMath st)

end

/-- The attribute-driven pass over the body children of the input. -/
def replaceDataMath (nodes : List Dom) : List Char × List TexJob :=
  rdmWalkList nodes false false ([], [])

/-! ## Sanitizer (src/rust/tex_to_mathml_wasm/src/sanitize.rs) -/

/-- A rebuilt output node of the sanitizer, as `OutNode`. -/
inductive OutNode where
  | text (s : List Char)
  | comment (s : List Char)
  | elem (tag : List Char) (attrs : List (List Char × List Char))
      (children : List OutNode)

/-- The fixed allow-list `is_keep_tag`. -/
def isKeepTag (t : List Char) : Bool :=
  t = "div".data || t = "p".data || t = "br".data || t = "hr".data
    || t = "b".data || t = "strong".data || t = "i".data || t = "em".data
    || t = "u".data || t = "s".data || t = "sub".data || t = "sup".data
    || t = "pre".data || t = "code".data || t = "blockquote".data
    || t = "ul".data || t = "ol".data || t = "li".data || t = "table".data
    || t = "thead".data || t = "tbody".data || t = "tr".data
    || t = "th".data || t = "td".data || t = "h1".data || t = "h2".data
    || t = "h3".data || t = "h4".data || t = "h5".data || t = "h6".data
    || t = "a".data || t = "img".data || t = "math".data

/-- Hyperlink target sanitization `sanitize_href` (shared verbatim by the
sanitizer and the DOCX builder): trims, rejects the empty result and the
javascript/data/vbscript schemes. -/
def sanitizeHref (href : List Char) : Option (List Char) :=
  let h := trimStr href
  if h = [] then none
  else
    let low := lowerStr h
    if prefixOf "javascript:".data low || prefixOf "data:".data low
        || prefixOf "vbscript:".data low then none
    else some h

/-- Tag-specific attribute retention `keep_attrs`. -/
def keepAttrs (tag : List Char) (attrs : List (List Char × List Char)) :
    List (List Char × List Char) :=
  let t := lowerStr tag
  if t = "a".data then
    (match (mapGet attrs "href".data).bind sanitizeHref with
     | some h => [("href".data, h)]
     | none => []) ++
    (match mapGet attrs "title".data with
     | some v => [("title".data, v)]
     | none => [])
  else if t = "img".data then
    ["src".data, "alt".data, "title".data, "width".data, "height".data].flatMap
      (fun k => match mapGet attrs k with
        | some v => [(k, v)]
        | none => [])
  else if t = "td".data ∨ t = "th".data then
    ["colspan".data, "rowspan".data].flatMap
      (fun k => match mapGet attrs k with
        | some v => [(k, v)]
        | none => [])
  else if t = "math".data then
    (match mapGet attrs "xmlns".data with
     | some v => [("xmlns".data, v)]
     | none => []) ++
    (match mapGet attrs "display".data with
     | some v => [("display".data, v)]
     | none => [])
  else []

/-- Whitespace-token split of a class value, as `split_whitespace`;
the accumulator carries the current token reversed. -/
def wsTokensAux : List Char → List Char → List (List Char)
  | [], acc => if acc = [] then [] else [acc.reverse]
  | c :: r, acc =>
    if isWsCh c then
      if acc = [] then wsTokensAux r [] else acc.reverse :: wsTokensAux r []
    else wsTokensAux r (c :: acc)

/-- Whitespace-separated tokens of a string. -/
def wsTokens (l : List Char) : List (List Char) := wsTokensAux l []

/-- KaTeX scaffolding detection `has_katex_class`: some whitespace token
of the lowercased class value equals `katex` or `katex-display`. -/
def hasKatexClass (attrs : List (List Char × List Char)) : Bool :=
  match mapGet attrs "class".data with
  | none => false
  | some c =>
    (wsTokens (lowerStr c)).any (fun x => x = "katex".data || x = "katex-display".data)

/-- Trailing-space test `ends_with_space` on rebuilt nodes. -/
def endsWithSpace (nodes : List OutNode) : Bool :=
  match nodes.getLast? with
  | some (.text t) =>
    match t.getLast? with
    | some c => isWsCh c
    | none => false
  | _ => false

mutual

/-- First descendant `math` element `find_first_math` (checks the node
itself first, then the children left to right). -/
def findFirstMath (d : Dom) : Option Dom :=
  match d with
  | .elem tag attrs cs =>
    if lowerStr tag = "math".data then some (.elem tag attrs cs)
    else findFirstMathList cs
  | _ => none

/-- First `math` element among a list of nodes and their descendants. -/
def findFirstMathList (l : List Dom) : Option Dom :=
  match l with
  | [] => none
  | d :: rest =>
    match findFirstMath d with
    | some m => some m
    | none => findFirstMathList rest

end

mutual

/-- Sanitization inside a `math` subtree: `sanitize_node` with
`in_math = true` never leaves that mode and filters nothing, so it is the
plain passthrough copy below (attribute order is kept as parsed; the
source routes the attributes through a `HashMap`, which can only reorder
them since the parser deduplicates names). -/
def passThroughNode (d : Dom) : OutNode :=
  match d with
  | .text s => .text s
  | .comment c => .comment c
  | .elem tag attrs cs => .elem tag attrs (passThroughList cs)

/-- Passthrough copy of a node list. -/
def passThroughList (l : List Dom) : List OutNode :=
  match l with
  | [] => []
  | d :: rest => passThroughNode d :: passThroughList rest

end

/-- The rebuilt `math` element produced by the `tag_lower == "math"`
branch of `sanitize_node` (also reached by the KaTeX-span branch, whose
recursive call lands on a `math` element): literal tag `math`, attributes
through `keep_attrs`, children in passthrough mode. -/
def mathOut (m : Dom) : List OutNode :=
  match m with
  | .elem _ attrs cs => [.elem "math".data (keepAttrs "math".data attrs) (passThroughList cs)]
  | _ => []

mutual

/-- The sanitizer walk `sanitize_node` at `in_math = false` (the only
mode reachable from the entry point; `in_math = true` is `passThroughNode`
above).  Cases in source order: drop-content tags vanish with their
subtree, a KaTeX span collapses to its first descendant `math`, `math`
itself switches to passthrough, `p`/`div` inside a list item are
unwrapped with a space appended when needed, tags outside the allow-list
are unwrapped, and allow-listed tags are rebuilt with `keep_attrs`. -/
def sanitizeNode (d : Dom) (inLi : Bool) : List OutNode :=
  match d with
  | .text s => [.text s]
  | .comment c => [.comment c]
  | .elem tag attrs cs =>
    let tagL := lowerStr tag
    if isDropContentTag tagL then []
    else if tagL = "span".data ∧ hasKatexClass attrs
        ∧ (findFirstMathList cs).isSome then
      match findFirstMathList cs with
      | some m => mathOut m
      | none => []
    else if tagL = "math".data then mathOut (.elem tag attrs cs)
    else
      let nowInLi := inLi || tagL = "li".data
      if nowInLi ∧ (tagL = "p".data ∨ tagL = "div".data) then
        let kids := sanitizeKids cs true
        if endsWithSpace kids then kids else kids ++ [.text " ".data]
      else if ¬ isKeepTag tagL then sanitizeKids cs nowInLi
      else [.elem tag (keepAttrs tag attrs) (sanitizeKids cs nowInLi)]

/-- Sanitization of sibling nodes `sanitize_children` (at
`in_math = false`). -/
def sanitizeKids (l : List Dom) (inLi : Bool) : List OutNode :=
  match l with
  | [] => []
  | d :: rest => sanitizeNode d inLi ++ sanitizeKids rest inLi

end

mutual

/-- Serialization `serialize_node` of a rebuilt node. -/
def serializeOut (n : OutNode) : List Char :=
  match n with
  | .text t => escText t
  | .comment c => "<!--".data ++ c ++ "-->".data
  | .elem tag attrs cs =>
    let open1 := "<".data ++ tag ++ serAttrs attrs
    if isVoidTag tag then open1 ++ "/>".data
    else open1 ++ ">".data ++ serializeOuts cs ++ "</".data ++ tag ++ ">".data

/-- Serialization of a list of rebuilt nodes. -/
def serializeOuts (l : List OutNode) : List Char :=
  match l with
  | [] => []
  | n :: rest => serializeOut n ++ serializeOuts rest

end

/-- The sanitizer `sanitize_for_office` applied to already-parsed body
children. -/
def sanitizeDomForOffice (nodes : List Dom) : List Char :=
  serializeOuts (sanitizeKids nodes false)

/-! ## Office-HTML transcoder (src/rust/tex_to_mathml_wasm/src/office.rs) -/

/-- Quote-aware scan `find_tag_end` for the closing `>` of a tag, as an
offset from the scan start; `inS`/`inD` track single/double quotes. -/
def findTagEndOff : List Char → Bool → Bool → Option Nat
  | [], _, _ => none
  | c :: rest, inS, inD =>
    if c = apos ∧ ¬ inD then (findTagEndOff rest (!inS) inD).map (· + 1)
    else if c = '"' ∧ ¬ inS then (findTagEndOff rest inS (!inD)).map (· + 1)
    else if c = '>' ∧ ¬ inS ∧ ¬ inD then some 0
    else (findTagEndOff rest inS inD).map (· + 1)

/-- The inline style added for a given lowercased tag name, as the match
in `html_to_office_html` (the CSS strings containing single quotes are
assembled around `apos` to keep the source file apostrophe-free). -/
def styleFor (lower : List Char) : Option (List Char) :=
  if lower = "code".data then
    some ("font-family:Consolas, ".data ++ [apos] ++ "Courier New".data
      ++ [apos] ++ ", monospace; background:#f5f5f5; padding:0 2px; border-radius:2px;".data)
  else if lower = "pre".data then
    some ("font-family:Consolas, ".data ++ [apos] ++ "Courier New".data
      ++ [apos] ++ ", monospace; background:#f5f5f5; padding:8px; border-radius:4px; white-space:pre-wrap;".data)
  else if lower = "a".data then
    some "color:#1155cc; text-decoration:underline;".data
  else if lower = "blockquote".data then
    some "border-left:3px solid #ccc; margin:0 0 0 0; padding-left:12px; color:#555;".data
  else if lower = "table".data then
    some "border-collapse:collapse;".data
  else if lower = "th".data ∨ lower = "td".data then
    some "border:1px solid #ddd; padding:4px 6px;".data
  else if lower = "ul".data ∨ lower = "ol".data then
    some "margin:0 0 0 0; padding-left:40px;".data
  else if lower = "li".data then
    some "margin:0 0 0 0;".data
  else if lower = "img".data then
    some "max-width:100%; height:auto; vertical-align:middle;".data
  else none

/-- Tag-name remapping of the transcoder (`strong` to `b`, `em` to `i`). -/
def mappedName (lower name : List Char) : List Char :=
  if lower = "strong".data then "b".data
  else if lower = "em".data then "i".data
  else name

/-- Fuel-driven main loop of `html_to_office_html`: copies text runs,
preserves comments verbatim, and rewrites each tag (name remapping plus a
conditional inline style).  Every iteration advances the cursor, so
`length + 1` fuel suffices. -/
def officeLoopF : Nat → List Char → Nat → List Char → List Char
  | 0, _, _, out => out
  | fuel + 1, s, i, out =>
    match findCharOff '<' (s.drop i) with
    | none => out ++ s.drop i
    | some rel =>
      let lt := i + rel
      let o1 := out ++ sliceCh s i lt
      if prefixOf "<!--".data (s.drop lt)
          ∧ (findSub (s.drop (lt + 4)) "-->".data).isSome then
        match findSub (s.drop (lt + 4)) "-->".data with
        | some e =>
          let j := lt + 4 + e + 3
          officeLoopF fuel s j (o1 ++ sliceCh s lt j)
        | none => o1
      else
        match findTagEndOff (s.drop lt) false false with
        | none => officeLoopF fuel s (lt + 1) (o1 ++ "<".data)
        | some off =>
          let gt := lt + off
          let raw := sliceCh s (lt + 1) gt
          let rawTrim := trimStr raw
          let isEnd := prefixOf "/".data rawTrim
          let tag := trimStr (rawTrim.dropWhile (fun c => c = '/'))
          if tag = [] then
            officeLoopF fuel s (gt + 1) (o1 ++ sliceCh s lt (gt + 1))
          else
            let nameEnd :=
              match tag.findIdx? (fun c => isWsCh c ∨ c = '/') with
              | some n => n
              | none => tag.length
            let name := tag.take nameEnd
            let rest := tag.drop nameEnd
            let lower := lowerStr name
            let mapped := mappedName lower name
            if isEnd then
              officeLoopF fuel s (gt + 1)
                (o1 ++ "</".data ++ mapped ++ ">".data)
            else
              let selfClose := rawTrim.getLast? = some '/'
              let hasStyle := containsSub (lowerStr rest) " style=".data
              let o2 := o1 ++ "<".data ++ mapped ++ rest ++
                (match styleFor lower with
                 | some sty =>
                   if hasStyle then [] else " style=\"".data ++ sty ++ "\"".data
                 | none => []) ++
                (if selfClose then "/>".data else ">".data)
              officeLoopF fuel s (gt + 1) o2

/-- The transcoder `html_to_office_html`. -/
def htmlToOfficeHtml (input : List Char) : List Char :=
  officeLoopF (input.length + 1) input 0 []

/-! ## The prepared-office pipeline (lib pipeline.rs) -/

/-- The extraction pipeline `html_to_office_prepared`: the attribute
pass, then sanitization, then the text pass on the re-parsed sanitized
HTML, then the office transcoding; the job lists of the two passes are
concatenated.  `parse` abstracts the html5ever parse to body children,
which happens before each walk in the source. -/
def htmlToOfficePrepared (parse : List Char → List Dom)
    (input : List Char) : PreparedOffice :=
  let p1 := replaceDataMath (parse input)
  let sanitized := sanitizeDomForOffice (parse p1.1)
  let p2 := injectTextMath (parse sanitized)
  ⟨htmlToOfficeHtml p2.1, p1.2 ++ p2.2⟩

/-! ## DOCX block model (src/lib/rust/docx_from_html/src/main.rs) -/

/-- Run-level formatting snapshot `RunStyle`. -/
structure RunStyle where
  bold : Bool
  italic : Bool
  code : Bool
deriving DecidableEq, Repr

/-- An inline content unit `Segment`. -/
inductive Seg where
  | text (t : List Char) (style : RunStyle)
  | linkText (t : List Char) (style : RunStyle) (href : List Char)
  | br
  | omml (xml : List Char)
deriving DecidableEq, Repr

/-- Paragraph style `ParagraphStyle`. -/
inductive ParagraphStyle where
  | normal
  | heading1
  | heading2
  | codeBlock
deriving DecidableEq, Repr

/-- Per-paragraph list membership `ListInfo` (`numId` 1 is bullet, 2 is
decimal; `ilvl` is the nesting level). -/
structure ListInfo where
  numId : Nat
  ilvl : Nat
deriving DecidableEq, Repr

/-- A paragraph `Paragraph`. -/
structure Paragraph where
  style : ParagraphStyle
  list : Option ListInfo
  segments : List Seg
deriving DecidableEq, Repr

/-- A table cell `TableCell`. -/
structure TableCell where
  paragraphs : List Paragraph
deriving DecidableEq, Repr

/-- A table row `TableRow`. -/
structure TableRow where
  cells : List TableCell
deriving DecidableEq, Repr

/-- A table `Table`. -/
structure Table where
  rows : List TableRow
deriving DecidableEq, Repr

/-- A document block `Block`. -/
inductive Block where
  | paragraph (p : Paragraph)
  | table (t : Table)
deriving DecidableEq, Repr

/-- The empty normal paragraph (the reset value of `flush_paragraph`). -/
def emptyPara : Paragraph := ⟨.normal, none, []⟩

/-- XML text escaping `xml_escape_text` (five entities). -/
def xmlEscapeText (s : List Char) : List Char :=
  s.flatMap (fun c =>
    if c = '&' then "&amp;".data
    else if c = '<' then "&lt;".data
    else if c = '>' then "&gt;".data
    else if c = '"' then "&quot;".data
    else if c = apos then "&apos;".data
    else [c])

/-- OMML extraction from an msEquation conditional comment
`comment_extract_ms_equation_omml`. -/
def commentExtractMsEquationOmml (contents : List Char) :
    Option (List Char) :=
  if ¬ containsSub (lowerStr contents) "msequation".data then none
  else
    match findSub contents "]>".data with
    | none => none
    | some st =>
      let rest := contents.drop (st + 2)
      match findSub rest "<![endif]".data with
      | none => none
      | some e =>
        let xml := trimStr (rest.take e)
        if ¬ containsSub xml "<m:".data then none
        else some (normalizeOmmlFull xml)

/-- Whitespace collapsing `collapse_ws` (any run of whitespace becomes
one space); the flag records whether the previous character was
whitespace. -/
def collapseWsAux : List Char → Bool → List Char
  | [], _ => []
  | c :: r, inWs =>
    if isWsCh c then
      if inWs then collapseWsAux r true else ' ' :: collapseWsAux r true
    else c :: collapseWsAux r false

/-- Whitespace collapsing entry point. -/
def collapseWs (l : List Char) : List Char := collapseWsAux l false

/-- The walk context `BuildCtx`: nesting-depth counters, the hyperlink
stack, the list-kind stack and the list-item annotation stack.  Stacks
are lists pushed at the right end, matching `Vec::push`. -/
structure BuildCtx where
  boldDepth : Nat
  italicDepth : Nat
  codeDepth : Nat
  preDepth : Nat
  linkStack : List (Option (List Char))
  listStack : List Nat
  liListStack : List (Option ListInfo)
deriving DecidableEq, Repr

/-- The fresh context `BuildCtx::new`. -/
def ctxNew : BuildCtx := ⟨0, 0, 0, 0, [], [], []⟩

/-- Innermost hyperlink target `current_href`. -/
def currentHref (ctx : BuildCtx) : Option (List Char) :=
  (ctx.linkStack.getLast?).bind (fun x => x)

/-- Innermost list annotation `current_list`. -/
def currentList (ctx : BuildCtx) : Option ListInfo :=
  (ctx.liListStack.getLast?).getD none

/-- The mutable state of the block walk: context, finished blocks, and
the paragraph under construction. -/
structure BuildSt where
  ctx : BuildCtx
  blocks : List Block
  current : Paragraph
deriving DecidableEq, Repr

/-- The initial walk state. -/
def initSt : BuildSt := ⟨ctxNew, [], emptyPara⟩

/-- Content test `paragraph_has_content`: some segment is a break, a
math fragment, or text that is not all whitespace. -/
def paragraphHasContent (p : Paragraph) : Bool :=
  p.segments.any (fun s =>
    match s with
    | .text t _ => !(trimStr t).isEmpty
    | .linkText t _ _ => !(trimStr t).isEmpty
    | .br => true
    | .omml _ => true)

/-- Paragraph flush `flush_paragraph`: pushes the current paragraph when
it has content and resets it to the empty normal paragraph. -/
def flushP (st : BuildSt) : BuildSt :=
  let st1 :=
    if paragraphHasContent st.current then
      { st with blocks := st.blocks ++ [.paragraph st.current] }
    else st
  { st1 with current := emptyPara }

/-- Paragraph opening `start_paragraph`: flush, then begin a paragraph
with the given style and list annotation. -/
def startP (st : BuildSt) (style : ParagraphStyle)
    (list : Option ListInfo) : BuildSt :=
  let st1 := flushP st
  { st1 with current := ⟨style, list, []⟩ }

/-- Segment push inside `emit_text`: link text when a hyperlink is
active, plain text otherwise. -/
def pushSeg (ctx : BuildCtx) (style : RunStyle) (current : Paragraph)
    (s : List Char) : Paragraph :=
  match currentHref ctx with
  | some h => { current with segments := current.segments ++ [.linkText s style h] }
  | none => { current with segments := current.segments ++ [.text s style] }

/-- Text emission `emit_text`: drops conditional-comment leftovers,
normalizes line endings, collapses whitespace outside preformatted
regions, trims the start of an empty paragraph, splits preformatted text
at newlines into explicit breaks, and records the style snapshot. -/
def emitTextSeg (ctx : BuildCtx) (current : Paragraph) (raw : List Char) :
    Paragraph :=
  if raw = [] then current
  else
    let t0 := trimL raw
    if prefixOf "<![if".data t0 || prefixOf "<![endif".data t0 then current
    else
      let preserve := 0 < ctx.preDepth
      let base := replaceCh (replaceAll raw "\r\n".data "\n".data) '\r' "\n".data
      let text0 := if preserve then base else collapseWs (replaceCh base '\n' " ".data)
      let text := if ¬ preserve ∧ current.segments = [] then trimL text0 else text0
      let style : RunStyle :=
        ⟨0 < ctx.boldDepth, 0 < ctx.italicDepth,
         0 < ctx.codeDepth || 0 < ctx.preDepth⟩
      if preserve ∧ text.contains '\n' then
        ((splitOnCh '\n' text).foldl
          (fun acc line =>
            let cur :=
              if acc.2 then acc.1
              else { acc.1 with segments := acc.1.segments ++ [Seg.br] }
            (if line = [] then cur else pushSeg ctx style cur line, false))
          (current, true)).1
      else if text ≠ [] then pushSeg ctx style current text
      else current

/-- Open-tag actions of the block walk (the tag dispatch before
recursing into children), in source order. -/
def openAction (tagL : List Char) (attrs : List (List Char × List Char))
    (st : BuildSt) : BuildSt :=
  if tagL = "h1".data then startP st .heading1 (currentList st.ctx)
  else if tagL = "h2".data ∨ tagL = "h3".data then
    startP st .heading2 (currentList st.ctx)
  else if tagL = "pre".data then
    let st1 := { st with ctx := { st.ctx with preDepth := st.ctx.preDepth + 1 } }
    startP st1 .codeBlock (currentList st1.ctx)
  else if tagL = "p".data ∨ tagL = "div".data
      ∨ tagL = "user-query-content".data ∨ tagL = "message-content".data then
    startP st .normal (currentList st.ctx)
  else if tagL = "br".data then
    { st with current := { st.current with segments := st.current.segments ++ [Seg.br] } }
  else if tagL = "hr".data then flushP st
  else if tagL = "ul".data then
    { st with ctx := { st.ctx with listStack := st.ctx.listStack ++ [1] } }
  else if tagL = "ol".data then
    { st with ctx := { st.ctx with listStack := st.ctx.listStack ++ [2] } }
  else if tagL = "li".data then
    let numId := (st.ctx.listStack.getLast?).getD 1
    let ilvl := st.ctx.listStack.length - 1
    let st1 := { st with ctx :=
      { st.ctx with liListStack := st.ctx.liListStack ++ [some ⟨numId, ilvl⟩] } }
    startP st1 .normal (currentList st1.ctx)
  else if tagL = "a".data then
    let href := (attrGetCi attrs "href".data).bind sanitizeHref
    { st with ctx := { st.ctx with linkStack := st.ctx.linkStack ++ [href] } }
  else if tagL = "code".data then
    { st with ctx := { st.ctx with codeDepth := st.ctx.codeDepth + 1 } }
  else if tagL = "b".data ∨ tagL = "strong".data then
    { st with ctx := { st.ctx with boldDepth := st.ctx.boldDepth + 1 } }
  else if tagL = "i".data ∨ tagL = "em".data then
    { st with ctx := { st.ctx with italicDepth := st.ctx.italicDepth + 1 } }
  else st

/-- Close-tag actions of the block walk (after the children). -/
def closeAction (tagL : List Char) (st : BuildSt) : BuildSt :=
  if tagL = "h1".data ∨ tagL = "h2".data ∨ tagL = "h3".data then flushP st
  else if tagL = "p".data ∨ tagL = "div".data
      ∨ tagL = "user-query-content".data ∨ tagL = "message-content".data then
    flushP st
  else if tagL = "pre".data then
    let st1 := flushP st
    { st1 with ctx := { st1.ctx with preDepth := st1.ctx.preDepth - 1 } }
  else if tagL = "ul".data ∨ tagL = "ol".data then
    { st with ctx := { st.ctx with listStack := st.ctx.listStack.dropLast } }
  else if tagL = "li".data then
    let st1 := flushP st
    { st1 with ctx := { st1.ctx with liListStack := st1.ctx.liListStack.dropLast } }
  else if tagL = "a".data then
    { st with ctx := { st.ctx with linkStack := st.ctx.linkStack.dropLast } }
  else if tagL = "code".data then
    { st with ctx := { st.ctx with codeDepth := st.ctx.codeDepth - 1 } }
  else if tagL = "b".data ∨ tagL = "strong".data then
    { st with ctx := { st.ctx with boldDepth := st.ctx.boldDepth - 1 } }
  else if tagL = "i".data ∨ tagL = "em".data then
    { st with ctx := { st.ctx with italicDepth := st.ctx.italicDepth - 1 } }
  else st

mutual

/-- The block walk `walk` specialized to `allow_tables = false` (the
mode used inside table cells): with the flag false the table branch is
dead and a `table` tag falls through to the default arm, which simply
recurses. -/
def walkF (d : Dom) (st : BuildSt) : BuildSt :=
  match d with
  | .text s => { st with current := emitTextSeg st.ctx st.current s }
  | .comment c =>
    match commentExtractMsEquationOmml c with
    | some omml =>
      { st with current :=
        { st.current with segments := st.current.segments ++ [.omml omml] } }
    | none => st
  | .elem tag _attrs cs =>
    let tagL := lowerStr tag
    if tagL = "math".data ∨ tagL = "annotation".data then st
    else closeAction tagL (walkFList cs (openAction tagL _attrs st))

/-- Sibling walk at `allow_tables = false`. -/
def walkFList (l : List Dom) (st : BuildSt) : BuildSt :=
  match l with
  | [] => st
  | d :: rest => walkFList rest (walkF d st)

end

/-- `build_blocks_from_nodes` at `allow_tables = false`: walk the nodes
from a fresh state and flush the trailing paragraph. -/
def buildBlocksNT (nodes : List Dom) : List Block :=
  (flushP (walkFList nodes initSt)).blocks

mutual

/-- The `tr`-descendant collector `find_children(node, "tr")`: pre-order,
the node itself first, and it keeps recursing below matches. -/
def collectTrs (d : Dom) : List Dom :=
  match d with
  | .elem tag attrs cs =>
    (if lowerStr tag = "tr".data then [Dom.elem tag attrs cs] else [])
      ++ collectTrsList cs
  | _ => []

/-- The collector over sibling nodes. -/
def collectTrsList (l : List Dom) : List Dom :=
  match l with
  | [] => []
  | d :: rest => collectTrs d ++ collectTrsList rest

end

/-- The `td`/`th` direct children of a row node. -/
def cellNodes (tr : Dom) : List Dom :=
  tr.childrenOf.filter (fun c =>
    c.tagLowerOf = some "td".data ∨ c.tagLowerOf = some "th".data)

/-- One table cell of `parse_table`: the cell children are built without
tables, only paragraph blocks are kept, and an empty result becomes one
empty normal paragraph. -/
def buildCell (c : Dom) : TableCell :=
  let paras := (buildBlocksNT c.childrenOf).filterMap
    (fun b => match b with
      | .paragraph p => some p
      | _ => none)
  ⟨if paras = [] then [emptyPara] else paras⟩

/-- One table row of `parse_table`; a row whose cell list is empty is
dropped (the `!cells.is_empty()` guard). -/
def rowOf (tr : Dom) : Option TableRow :=
  let cells := (cellNodes tr).map buildCell
  if cells = [] then none else some ⟨cells⟩

/-- The table walk `parse_table`. -/
def parseTable (d : Dom) : Table :=
  ⟨(collectTrs d).filterMap rowOf⟩

mutual

/-- The block walk `walk` at `allow_tables = true` (the top-level mode):
a `table` element flushes the paragraph and appends a `Table` block; all
other behavior matches `walkF`, with children walked in the same mode. -/
def walkT (d : Dom) (st : BuildSt) : BuildSt :=
  match d with
  | .text s => { st with current := emitTextSeg st.ctx st.current s }
  | .comment c =>
    match commentExtractMsEquationOmml c with
    | some omml =>
      { st with current :=
        { st.current with segments := st.current.segments ++ [.omml omml] } }
    | none => st
  | .elem tag _attrs cs =>
    let tagL := lowerStr tag
    if tagL = "table".data then
      let st1 := flushP st
      { st1 with blocks := st1.blocks ++ [.table (parseTable (.elem tag _attrs cs))] }
    else if tagL = "math".data ∨ tagL = "annotation".data then st
    else closeAction tagL (walkTList cs (openAction tagL _attrs st))

/-- Sibling walk at `allow_tables = true`. -/
def walkTList (l : List Dom) (st : BuildSt) : BuildSt :=
  match l with
  | [] => st
  | d :: rest => walkTList rest (walkT d st)

end

/-- `build_blocks_from_nodes`: the top-level entry selects the mode by
the `allow_tables` flag. -/
def buildBlocksFromNodes (nodes : List Dom) (allowTables : Bool) :
    List Block :=
  if allowTables then (flushP (walkTList nodes initSt)).blocks
  else buildBlocksNT nodes

/-- The decision logic of the conversion CLI `main` (lib variant):
reading the input file is abstracted as an optional content (`none`
models open/read failure), the html5ever parse plus body search of
`build_blocks_from_html` is the `parse` parameter, and a successful run
returns the blocks that are then serialized and written (the package
write itself is I/O and outside the model).  The source checks only for
unreadable input and for whitespace-only input before building blocks;
it never inspects whether any block was produced. -/
def mainModel (parse : List Char → List Dom)
    (readRes : Option (List Char)) : Except (List Char) (List Block) :=
  match readRes with
  | none => .error "open failed".data
  | some html =>
    if trimStr html = [] then .error "empty html".data
    else .ok (buildBlocksFromNodes (parse html) true)

/-! ## OOXML paragraph serialization (paragraph_xml and helpers) -/

/-- The run-property fragment shared by `run_xml` and
`hyperlink_run_xml`: bold, italic, and the Consolas font for code. -/
def styleRunProps (style : RunStyle) : List Char :=
  (if style.bold then "<w:b/>".data else [])
    ++ (if style.italic then "<w:i/>".data else [])
    ++ (if style.code then
        "<w:rFonts w:ascii=\"Consolas\" w:hAnsi=\"Consolas\" w:cs=\"Consolas\"/>".data
      else [])

/-- Plain run serialization `run_xml`: the property block appears only
when some style flag is set, and an empty text yields nothing. -/
def runXml (text : List Char) (style : RunStyle) : List Char :=
  if text = [] then []
  else
    "<w:r>".data
      ++ (if style.bold || style.italic || style.code then
          "<w:rPr>".data ++ styleRunProps style ++ "</w:rPr>".data
        else [])
      ++ "<w:t xml:space=\"preserve\">".data ++ xmlEscapeText text
      ++ "</w:t></w:r>".data

/-- Hyperlink run serialization `hyperlink_run_xml`: the property block
is always emitted. -/
def hyperlinkRunXml (text : List Char) (style : RunStyle) : List Char :=
  if text = [] then []
  else
    "<w:r><w:rPr>".data ++ styleRunProps style
      ++ "</w:rPr><w:t xml:space=\"preserve\">".data ++ xmlEscapeText text
      ++ "</w:t></w:r>".data

/-- Relationship-id lookup in the hyperlink map (a `BTreeMap` with
unique keys, so first-match lookup). -/
def ridFor (m : List (List Char × List Char)) (href : List Char) :
    Option (List Char) :=
  (m.find? (fun kv => kv.1 = href)).map (fun kv => kv.2)

/-- The in-progress hyperlink buffer of `paragraph_xml`: accumulated
text, its style, and the target. -/
abbrev LinkBuf := List Char × RunStyle × List Char

/-- Buffer flush `flush_link`: an empty buffer emits nothing; a buffer
whose target has a relationship id becomes a `w:hyperlink` with one
merged run, otherwise a plain run. -/
def flushLinkBuf (m : List (List Char × List Char))
    (st : List Char × Option LinkBuf) : List Char :=
  match st.2 with
  | none => st.1
  | some (buf, style, href) =>
    if buf = [] then st.1
    else
      match ridFor m href with
      | some rid =>
        st.1 ++ "<w:hyperlink r:id=\"".data ++ rid
          ++ "\" w:history=\"1\">".data ++ hyperlinkRunXml buf style
          ++ "</w:hyperlink>".data
      | none => st.1 ++ runXml buf style

/-- One step of the segment loop of `paragraph_xml`: breaks, math and
plain text flush the buffer; link text extends a matching buffer or
flushes and starts a new one. -/
def segStep (m : List (List Char × List Char))
    (st : List Char × Option LinkBuf) (seg : Seg) :
    List Char × Option LinkBuf :=
  match seg with
  | .br => (flushLinkBuf m st ++ "<w:r><w:br/></w:r>".data, none)
  | .omml xml => (flushLinkBuf m st ++ xml, none)
  | .text t style => (flushLinkBuf m st ++ runXml t style, none)
  | .linkText t style href =>
    match st.2 with
    | some (buf, cs, ch) =>
      if ch = href ∧ cs = style then (st.1, some (buf ++ t, cs, ch))
      else (flushLinkBuf m st, some (t, style, href))
    | none => (flushLinkBuf m st, some (t, style, href))

/-- The paragraph-property block of `paragraph_xml` (style reference,
then list numbering), emitted only for non-normal style or list
membership. -/
def paragraphProps (p : Paragraph) : List Char :=
  if p.style = .normal ∧ p.list = none then []
  else
    "<w:pPr>".data
      ++ (match p.style with
        | .normal => []
        | .heading1 => "<w:pStyle w:val=\"Heading1\"/>".data
        | .heading2 => "<w:pStyle w:val=\"Heading2\"/>".data
        | .codeBlock => "<w:pStyle w:val=\"CodeBlock\"/>".data)
      ++ (match p.list with
        | some li =>
          "<w:numPr><w:ilvl w:val=\"".data ++ natChars li.ilvl
            ++ "\"/><w:numId w:val=\"".data ++ natChars li.numId
            ++ "\"/></w:numPr>".data
        | none => [])
      ++ "</w:pPr>".data

/-- Paragraph serialization `paragraph_xml`: the opening tag and the
property block, the segment loop with the hyperlink buffer, the final
flush, and the closing tag. -/
def paragraphXml (p : Paragraph) (m : List (List Char × List Char)) :
    List Char :=
  flushLinkBuf m
    (p.segments.foldl (segStep m) ("<w:p>".data ++ paragraphProps p, none))
    ++ "</w:p>".data

/-! ## Size measure on the DOM (for induction) -/

mutual

/-- Size of a node: one plus the sizes of the children. -/
def domSize : Dom → Nat
  | .text _ => 1
  | .comment _ => 1
  | .elem _ _ cs => 1 + domsSize cs

/-- Total size of a node list. -/
def domsSize : List Dom → Nat
  | [] => 0
  | d :: rest => domSize d + domsSize rest

end

/-! ## The sanitizer output invariant (claim C4) -/

/-- The attribute keys the sanitizer may retain on a given lowercased
tag, per the specification of `keep_attrs`. -/
def allowedKeys (tagL : List Char) : List (List Char) :=
  if tagL = "a".data then ["href".data, "title".data]
  else if tagL = "img".data then
    ["src".data, "alt".data, "title".data, "width".data, "height".data]
  else if tagL = "td".data ∨ tagL = "th".data then
    ["colspan".data, "rowspan".data]
  else if tagL = "math".data then ["xmlns".data, "display".data]
  else []

/-- A sanitized hyperlink value: non-empty, already trimmed, and not of
the javascript/data/vbscript schemes. -/
def hrefOk (v : List Char) : Bool :=
  if v = [] then false
  else if trimStr v ≠ v then false
  else if prefixOf "javascript:".data (lowerStr v)
      || prefixOf "data:".data (lowerStr v)
      || prefixOf "vbscript:".data (lowerStr v) then false
  else true

/-- One retained attribute is appropriate for the tag: its key is in the
allow-list for that tag, and an `href` on an anchor is sanitized. -/
def attrOk (tagL : List Char) (kv : List Char × List Char) : Bool :=
  if ¬ (kv.1 ∈ allowedKeys tagL) then false
  else if tagL = "a".data ∧ kv.1 = "href".data then hrefOk kv.2
  else true

mutual

/-- The sanitizer output invariant on one node: every element carries an
allow-listed (lowercased) tag name and only tag-appropriate attributes,
and its children satisfy the same, except that the subtree below a
`math` element is exempt. -/
def goodOut : OutNode → Bool
  | .text _ => true
  | .comment _ => true
  | .elem tag attrs cs =>
    isKeepTag (lowerStr tag) && attrs.all (attrOk (lowerStr tag))
      && (if lowerStr tag = "math".data then true else goodOuts cs)

/-- The invariant on a forest of output nodes. -/
def goodOuts : List OutNode → Bool
  | [] => true
  | n :: rest => goodOut n && goodOuts rest

end

/-! ## Concrete inputs used by the claim theorems -/

/-- Claim C1 input: a `data-math` element (first pass) followed by
dollar-delimited text math (second pass). -/
def c1in : List Char := "<p>hi</p><div data-math=\"x\"></div><p>$a+b$</p>".data

/-- Body children of `c1in` as html5ever parses them. -/
def c1dom0 : List Dom :=
  [.elem "p".data [] [.text "hi".data],
   .elem "div".data [("data-math".data, "x".data)] [],
   .elem "p".data [] [.text "$a+b$".data]]

/-- The first-pass output on `c1in` (the `div` replaced by the block
placeholder for job 0). -/
def c1p1out : List Char :=
  "<p>hi</p><span class=\"cof-math-block\"><!--COF_TEX_0--></span><p>$a+b$</p>".data

/-- Body children of `c1p1out` as parsed. -/
def c1dom1 : List Dom :=
  [.elem "p".data [] [.text "hi".data],
   .elem "span".data [("class".data, "cof-math-block".data)]
     [.comment "COF_TEX_0".data],
   .elem "p".data [] [.text "$a+b$".data]]

/-- The sanitized form (the span is not allow-listed and is unwrapped,
leaving the bare marker comment). -/
def c1san : List Char := "<p>hi</p><!--COF_TEX_0--><p>$a+b$</p>".data

/-- Body children of `c1san` as parsed. -/
def c1dom2 : List Dom :=
  [.elem "p".data [] [.text "hi".data],
   .comment "COF_TEX_0".data,
   .elem "p".data [] [.text "$a+b$".data]]

/-- The parse oracle for claim C1: the html5ever body children of the
three strings that occur in this pipeline run. -/
def c1parse (s : List Char) : List Dom :=
  if s = c1in then c1dom0
  else if s = c1p1out then c1dom1
  else if s = c1san then c1dom2
  else []

/-- Claim C3 input: the currency-guard test string. -/
def c3in : List Char :=
  "<p>Price is $100 and math is $x^2 + y^2 = z^2$ ok</p>".data

/-- Body children of `c3in` as parsed; the first pass and the sanitizer
both map this document to itself, so one table entry covers all three
parses of the pipeline. -/
def c3dom : List Dom :=
  [.elem "p".data []
    [.text "Price is $100 and math is $x^2 + y^2 = z^2$ ok".data]]

/-- The parse oracle for claim C3. -/
def c3parse (s : List Char) : List Dom := if s = c3in then c3dom else []

/-- The LaTeX of the single job claim C3 predicts. -/
def c3latex : List Char := "x^2 + y^2 = z^2".data

/-- Claim C5 counterexample input: a one-row table whose row has no
cells. -/
def c5t0 : Dom := .elem "table".data [] [.elem "tr".data [] []]

/-- A td cell with the given text, for the claim C5 witness. -/
def tdCell (s : List Char) : Dom := .elem "td".data [] [.text s]

/-- A concrete two-by-two table (with a `tbody`, as html5ever inserts
one) for the claim C5 witness. -/
def c5t22 : Dom :=
  .elem "table".data []
    [.elem "tbody".data []
      [.elem "tr".data [] [tdCell "a".data, tdCell "b".data],
       .elem "tr".data [] [tdCell "c".data, tdCell "d".data]]]

/-- Claim C6 input: the nested bullet list. -/
def c6dom : Dom :=
  .elem "ul".data []
    [.elem "li".data []
      [.text "a".data,
       .elem "ul".data [] [.elem "li".data [] [.text "b".data]]]]

/-- A bare list item with one text child, for the general part of
claim C6. -/
def liNode : Dom := .elem "li".data [] [.text "x".data]

/-- The plain run style (no bold, italic or code). -/
def plainStyle : RunStyle := ⟨false, false, false⟩

/-- Claim C7 concrete paragraph: two adjacent link segments with the
same target and style. -/
def c7para : Paragraph :=
  ⟨.normal, none,
   [.linkText "ab".data plainStyle "https://x".data,
    .linkText "cd".data plainStyle "https://x".data]⟩

/-- Claim C7 relationship map assigning an id to the target. -/
def c7map : List (List Char × List Char) :=
  [("https://x".data, "rId10".data)]

/-- Claim C8 failing input: well-formed HTML whose only paragraph is
whitespace, so zero blocks are produced. -/
def c8in : List Char := "<p> </p>".data

/-- The parse oracle for claim C8. -/
def c8parse (s : List Char) : List Dom :=
  if s = c8in then [.elem "p".data [] [.text " ".data]] else []

/-- Claim C9 counterexample: the legacy namespace URI followed by its
own tail; the rewrite's replacement ends in the letter aitch, which
joins with the tail to re-create the full URI. -/
def c9bad : List Char :=
  msOmmlNs ++ "ttp://schemas.microsoft.com/office/2004/12/omml".data

/-- A stable OMML fragment for the claim C9 witness. -/
def c9stable : List Char := "<w:p><m:oMath><m:r/></m:oMath></w:p>".data

/-- Claim C2 witness HTML: marker 0 present, marker 1 absent. -/
def c2html : List Char := "<div><!--COF_TEX_0--></div>".data

/-- Claim C2 witness joined MathML: two parts separated by U+001F. -/
def c2joined : List Char :=
  "<mi>a</mi>".data ++ [Char.ofNat 31] ++ "<mi>b</mi>".data

/-- Claim C10 witness HTML: contains no marker head. -/
def c10html : List Char := "<p>no markers here</p>".data

/-! ## Helper lemmas: substring machinery -/

theorem prefixOf_append_self (p t : List Char) :
    prefixOf p (p ++ t) = true := by
  induction p with
  | nil => simp [prefixOf]
  | cons a as ih => simp [prefixOf, ih]

theorem prefixOf_extend (p s t : List Char) (h : prefixOf p s = true) :
    prefixOf p (s ++ t) = true := by
  induction p generalizing s with
  | nil => simp [prefixOf]
  | cons a as ih =>
    cases s with
    | nil => simp [prefixOf] at h
    | cons b bs =>
      simp only [prefixOf, Bool.and_eq_true, decide_eq_true_eq] at h ⊢
      exact ⟨h.1, ih bs h.2⟩

theorem containsSub_of_prefixOf (s p : List Char)
    (h : prefixOf p s = true) : containsSub s p = true := by
  cases s with
  | nil => simpa [containsSub] using h
  | cons c rest => simp [containsSub, h]

theorem containsSub_append_right (a b p : List Char)
    (h : containsSub b p = true) : containsSub (a ++ b) p = true := by
  induction a with
  | nil => simpa using h
  | cons c cs ih => simp [containsSub, ih]

theorem containsSub_append_left (a b p : List Char)
    (h : containsSub a p = true) : containsSub (a ++ b) p = true := by
  induction a with
  | nil =>
    simp only [containsSub] at h
    exact containsSub_of_prefixOf _ _ (prefixOf_extend _ _ _ h)
  | cons c cs ih =>
    simp only [containsSub, Bool.or_eq_true] at h ⊢
    cases h with
    | inl hp => exact Or.inl (by simpa using prefixOf_extend _ _ b hp)
    | inr hc => exact Or.inr (ih hc)

theorem containsSub_flatComma (xs : List (List Char)) (y : List Char)
    (h : y ∈ xs) :
    containsSub (xs.flatMap (fun z => ',' :: z)) y = true := by
  induction xs with
  | nil => cases h
  | cons x rest ih =>
    rcases List.mem_cons.mp h with rfl | hm
    · show containsSub (',' :: (y ++ rest.flatMap (fun z => ',' :: z))) y = true
      simp only [containsSub, Bool.or_eq_true]
      exact Or.inr (containsSub_of_prefixOf _ _ (prefixOf_append_self _ _))
    · show containsSub ((',' :: x) ++ rest.flatMap (fun z => ',' :: z)) y = true
      exact containsSub_append_right _ _ _ (ih hm)

theorem containsSub_commaJoin (l : List (List Char)) (x : List Char)
    (h : x ∈ l) : containsSub (commaJoin l) x = true := by
  cases l with
  | nil => cases h
  | cons y rest =>
    rcases List.mem_cons.mp h with rfl | hm
    · show containsSub (x ++ rest.flatMap (fun z => ',' :: z)) x = true
      exact containsSub_of_prefixOf _ _ (prefixOf_append_self x _)
    · show containsSub (y ++ rest.flatMap (fun z => ',' :: z)) x = true
      exact containsSub_append_right _ _ _ (containsSub_flatComma _ _ hm)

theorem warnComment_mentions (missing : List Nat) (i : Nat)
    (h : i ∈ missing) :
    containsSub (warnComment missing) (natChars i) = true := by
  unfold warnComment
  refine containsSub_append_left _ _ _ ?_
  exact containsSub_append_right _ _ _
    (containsSub_commaJoin _ _ (List.mem_map_of_mem natChars h))

/-! ## Helper lemmas: replaceAll on pattern-free strings -/

theorem replaceAllF_of_not_contains (pat rep : List Char) :
    ∀ (fuel : Nat) (s : List Char), containsSub s pat = false →
      replaceAllF fuel s pat rep = s := by
  intro fuel
  induction fuel with
  | zero => intro s _; rfl
  | succ n ih =>
    intro s hs
    cases s with
    | nil => rfl
    | cons c rest =>
      simp only [containsSub, Bool.or_eq_false_iff] at hs
      show (if pat ≠ [] ∧ prefixOf pat (c :: rest) = true then
          rep ++ replaceAllF n (List.drop (pat.length - 1) rest) pat rep
        else c :: replaceAllF n rest pat rep) = c :: rest
      rw [if_neg, ih rest hs.2]
      intro hcond
      rw [hs.1] at hcond
      exact absurd hcond.2 (by simp)

theorem replaceAll_of_not_contains (s pat rep : List Char)
    (h : containsSub s pat = false) : replaceAll s pat rep = s :=
  replaceAllF_of_not_contains pat rep _ s h

/-! ## Helper lemmas: trimming is idempotent, sanitized hrefs are stable -/

theorem trimL_idem (s : List Char) : trimL (trimL s) = trimL s :=
  List.dropWhile_idempotent isWsCh s

theorem trimR_eq_rdropWhile (s : List Char) :
    trimR s = List.rdropWhile isWsCh s := rfl

theorem trimR_idem (s : List Char) : trimR (trimR s) = trimR s := by
  simp only [trimR_eq_rdropWhile]
  exact List.rdropWhile_idempotent isWsCh s

theorem trimL_trimR_trimL (s : List Char) :
    trimL (trimR (trimL s)) = trimR (trimL s) := by
  set z := trimL s with hz
  have hz2 : trimL z = z := by rw [hz]; exact trimL_idem s
  show List.dropWhile isWsCh (List.rdropWhile isWsCh z) = List.rdropWhile isWsCh z
  obtain ⟨t, ht⟩ := List.rdropWhile_prefix isWsCh z
  rw [List.dropWhile_eq_self_iff]
  intro hl
  have hzl : 0 < z.length := by
    rw [← ht, List.length_append]
    omega
  have hget : (z.rdropWhile isWsCh).get ⟨0, hl⟩ = z.get ⟨0, hzl⟩ := by
    have hq : (List.rdropWhile isWsCh z)[0]? = z[0]? := by
      conv_rhs => rw [← ht]
      exact (List.getElem?_append_left hl).symm
    simp only [List.get_eq_getElem]
    have h1 := List.getElem?_eq_getElem hl
    have h2 := List.getElem?_eq_getElem hzl
    rw [h1, h2] at hq
    exact Option.some.inj hq
  rw [hget]
  exact (List.dropWhile_eq_self_iff.mp hz2) hzl

theorem trimStr_idem (s : List Char) : trimStr (trimStr s) = trimStr s := by
  show trimR (trimL (trimR (trimL s))) = trimR (trimL s)
  rw [trimL_trimR_trimL, trimR_idem]

theorem sanitizeHref_hrefOk (v h : List Char)
    (hs : sanitizeHref v = some h) : hrefOk h = true := by
  unfold sanitizeHref at hs
  dsimp only at hs
  split_ifs at hs with h1 h2
  injection hs with hs
  subst hs
  unfold hrefOk
  rw [if_neg h1, if_neg (by simp [trimStr_idem]), if_neg (by simpa using h2)]

/-! ## Helper lemmas: retained attributes are tag-appropriate -/

theorem attrOk_of_key (tagL k v : List Char) (hk : k ∈ allowedKeys tagL)
    (hna : ¬ (tagL = "a".data ∧ k = "href".data)) :
    attrOk tagL (k, v) = true := by
  unfold attrOk
  rw [if_neg (by simpa using hk), if_neg hna]

theorem all_attrOk_pick (tagL : List Char)
    (attrs : List (List Char × List Char)) (ks : List (List Char))
    (hk : ∀ k ∈ ks, k ∈ allowedKeys tagL ∧ ¬ (tagL = "a".data ∧ k = "href".data)) :
    (ks.flatMap (fun k =>
      match mapGet attrs k with
      | some v => [(k, v)]
      | none => [])).all (attrOk tagL) = true := by
  induction ks with
  | nil => rfl
  | cons k rest ih =>
    have hh := hk k (List.mem_cons_self k rest)
    have ht : ∀ k' ∈ rest, k' ∈ allowedKeys tagL
        ∧ ¬ (tagL = "a".data ∧ k' = "href".data) :=
      fun k' h' => hk k' (List.mem_cons_of_mem k h')
    simp only [List.flatMap_cons, List.all_append, Bool.and_eq_true]
    refine ⟨?_, ih ht⟩
    cases hv : mapGet attrs k with
    | none => rfl
    | some v => simp [attrOk_of_key tagL k v hh.1 hh.2]

theorem keepAttrs_attrOk (tag : List Char)
    (attrs : List (List Char × List Char)) :
    (keepAttrs tag attrs).all (attrOk (lowerStr tag)) = true := by
  unfold keepAttrs
  dsimp only
  split_ifs with ha himg htd hmath
  · rw [List.all_append]
    have hhref : (match (mapGet attrs "href".data).bind sanitizeHref with
        | some h => [("href".data, h)]
        | none => ([] : List (List Char × List Char))).all
          (attrOk (lowerStr tag)) = true := by
      cases hb : (mapGet attrs "href".data).bind sanitizeHref with
      | none => rfl
      | some h =>
        rcases Option.bind_eq_some.mp hb with ⟨v, _, hsv⟩
        have hok := sanitizeHref_hrefOk v h hsv
        simp [attrOk, ha, allowedKeys, hok]
    have htitle : (match mapGet attrs "title".data with
        | some v => [("title".data, v)]
        | none => ([] : List (List Char × List Char))).all
          (attrOk (lowerStr tag)) = true := by
      cases mapGet attrs "title".data with
      | none => rfl
      | some v =>
        have h1 : "title".data ∈ allowedKeys (lowerStr tag) := by rw [ha]; decide
        have h2 : ¬ (lowerStr tag = "a".data ∧ "title".data = "href".data) := by
          rw [ha]; decide
        simp [attrOk_of_key _ _ v h1 h2]
    simp [hhref, htitle]
  · exact all_attrOk_pick _ attrs _
      (by intro k hkm; rw [himg]; fin_cases hkm <;> exact ⟨by decide, by decide⟩)
  · refine all_attrOk_pick _ attrs _ ?_
    intro k hkm
    rcases htd with h | h <;> rw [h] <;> fin_cases hkm <;>
      exact ⟨by decide, by decide⟩
  · rw [List.all_append]
    have hx : (match mapGet attrs "xmlns".data with
        | some v => [("xmlns".data, v)]
        | none => ([] : List (List Char × List Char))).all
          (attrOk (lowerStr tag)) = true := by
      cases mapGet attrs "xmlns".data with
      | none => rfl
      | some v =>
        have h1 : "xmlns".data ∈ allowedKeys (lowerStr tag) := by rw [hmath]; decide
        have h2 : ¬ (lowerStr tag = "a".data ∧ "xmlns".data = "href".data) := by
          rw [hmath]; decide
        simp [attrOk_of_key _ _ v h1 h2]
    have hd : (match mapGet attrs "display".data with
        | some v => [("display".data, v)]
        | none => ([] : List (List Char × List Char))).all
          (attrOk (lowerStr tag)) = true := by
      cases mapGet attrs "display".data with
      | none => rfl
      | some v =>
        have h1 : "display".data ∈ allowedKeys (lowerStr tag) := by rw [hmath]; decide
        have h2 : ¬ (lowerStr tag = "a".data ∧ "display".data = "href".data) := by
          rw [hmath]; decide
        simp [attrOk_of_key _ _ v h1 h2]
    simp [hx, hd]
  · rfl

/-! ## Helper lemmas: the sanitizer invariant -/

theorem goodOuts_append (a b : List OutNode) :
    goodOuts (a ++ b) = (goodOuts a && goodOuts b) := by
  induction a with
  | nil => simp [goodOuts]
  | cons n rest ih => simp [goodOuts, ih, Bool.and_assoc]

theorem mathOut_good (m : Dom) : goodOuts (mathOut m) = true := by
  cases m with
  | text s => rfl
  | comment s => rfl
  | elem tag attrs cs =>
    show goodOuts [.elem "math".data (keepAttrs "math".data attrs)
      (passThroughList cs)] = true
    have hkB := keepAttrs_attrOk "math".data attrs
    simp only [goodOuts, goodOut, Bool.and_true]
    rw [hkB, if_pos (show lowerStr "math".data = "math".data by decide),
      (show isKeepTag (lowerStr "math".data) = true by decide)]
    rfl

theorem domSize_pos (d : Dom) : 1 ≤ domSize d := by
  cases d <;> simp [domSize]

theorem sanitize_good_aux :
    ∀ (n : Nat) (nodes : List Dom) (il : Bool), domsSize nodes ≤ n →
      goodOuts (sanitizeKids nodes il) = true := by
  intro n
  induction n with
  | zero =>
    intro nodes il h
    cases nodes with
    | nil => rfl
    | cons d rest =>
      exfalso
      have := domSize_pos d
      simp only [domsSize] at h
      omega
  | succ n ih =>
    intro nodes il h
    cases nodes with
    | nil => rfl
    | cons d rest =>
      have hd1 := domSize_pos d
      have hsz : domSize d + domsSize rest ≤ n + 1 := by
        simpa [domsSize] using h
      have hrest : goodOuts (sanitizeKids rest il) = true :=
        ih rest il (by omega)
      show goodOuts (sanitizeNode d il ++ sanitizeKids rest il) = true
      rw [goodOuts_append, hrest, Bool.and_true]
      cases d with
      | text s => rfl
      | comment c => rfl
      | elem tag attrs cs =>
        have hcs : domsSize cs ≤ n := by
          simp only [domSize] at hsz
          omega
        show goodOuts (sanitizeNode (.elem tag attrs cs) il) = true
        unfold sanitizeNode
        dsimp only
        split_ifs with h1 h2 h3 h4 h5 h6
        all_goals first
        | rfl
        | exact ih cs _ hcs
        | (rcases h2 with ⟨-, -, hm⟩
           rcases Option.isSome_iff_exists.mp hm with ⟨m, hfm⟩
           rw [hfm]
           exact mathOut_good m)
        | exact mathOut_good _
        | (rw [goodOuts_append, ih cs true hcs]; rfl)
        | (have hkeep : isKeepTag (lowerStr tag) = true := by simpa using h6
           simp only [goodOuts, goodOut, Bool.and_true]
           rw [hkeep, keepAttrs_attrOk tag attrs]
           simp only [Bool.true_and]
           rw [if_neg h3]
           exact ih cs _ hcs)

/-! ## Helper lemmas: table shape and hyperlink buffering -/

theorem filterMap_eq_map_of {α β : Type} (f : α → Option β) (g : α → β)
    (l : List α) (h : ∀ x ∈ l, f x = some (g x)) :
    l.filterMap f = l.map g := by
  induction l with
  | nil => rfl
  | cons a rest ih =>
    rw [List.filterMap_cons, h a (List.mem_cons_self a rest), List.map_cons,
      ih (fun x hx => h x (List.mem_cons_of_mem a hx))]

theorem segStep_merge (m : List (List Char × List Char))
    (st : List Char × Option LinkBuf) (t1 t2 : List Char) (s : RunStyle)
    (h : List Char) :
    segStep m (segStep m st (.linkText t1 s h)) (.linkText t2 s h)
      = segStep m st (.linkText (t1 ++ t2) s h) := by
  obtain ⟨o, b⟩ := st
  cases b with
  | none => simp [segStep, flushLinkBuf, List.append_assoc]
  | some lb =>
    obtain ⟨buf, cs, ch⟩ := lb
    by_cases hc : ch = h ∧ cs = s
    · obtain ⟨rfl, rfl⟩ := hc
      simp [segStep, List.append_assoc]
    · simp [segStep, hc]

/-! ## The claims -/

/-- Claim C1 (code bug): the spec requires `jobs[i].id = i` across both
passes of `html_to_office_prepared`, but the text-driven pass numbers its
jobs from zero independently of the attribute-driven pass; on an input
that produces one job in each pass, the combined ids are `[0, 0]` instead
of `[0, 1]`, and the second job's placeholder marker collides with the
first job's. -/
theorem prepared_jobs_id_mismatch :
    ((htmlToOfficePrepared c1parse c1in).jobs.map TexJob.id = [0, 0])
    ∧ ¬ ((htmlToOfficePrepared c1parse c1in).jobs.map TexJob.id
        = List.range (htmlToOfficePrepared c1parse c1in).jobs.length) := by
  decide

/-- Claim C2: when the HTML contains a marker head, `office_apply_mathml`
(lib variant) always returns `Ok`; the substitution loop records missing
ids and keeps going, and the returned HTML carries the diagnostic comment
whose text mentions the decimal form of every missing id. -/
theorem apply_mathml_missing_nonfatal (html joined : List Char)
    (h : containsSub html markerHead = true) :
    (officeApplyMathml html joined =
      .ok (if (officeApplyCore html (mathmlParts joined)).2 = []
        then (officeApplyCore html (mathmlParts joined)).1
        else (officeApplyCore html (mathmlParts joined)).1
          ++ warnComment (officeApplyCore html (mathmlParts joined)).2))
    ∧ ∀ i ∈ (officeApplyCore html (mathmlParts joined)).2,
        containsSub
          (warnComment (officeApplyCore html (mathmlParts joined)).2)
          (natChars i) = true := by
  constructor
  · simp [officeApplyMathml, h]
  · intro i hi
    exact warnComment_mentions _ i hi

/-- Witness for claim C2 at a concrete input with one present and one
missing marker. -/
theorem apply_mathml_missing_nonfatal_witness :
    containsSub c2html markerHead = true
    ∧ ((officeApplyMathml c2html c2joined =
        .ok (if (officeApplyCore c2html (mathmlParts c2joined)).2 = []
          then (officeApplyCore c2html (mathmlParts c2joined)).1
          else (officeApplyCore c2html (mathmlParts c2joined)).1
            ++ warnComment (officeApplyCore c2html (mathmlParts c2joined)).2))
      ∧ ∀ i ∈ (officeApplyCore c2html (mathmlParts c2joined)).2,
          containsSub
            (warnComment (officeApplyCore c2html (mathmlParts c2joined)).2)
            (natChars i) = true) :=
  ⟨by decide, apply_mathml_missing_nonfatal c2html c2joined (by decide)⟩

/-- Claim C3: on the currency-guard input, the pipeline produces exactly
one inline job whose LaTeX contains `x^2`, and the literal text before
the math span survives unmodified in the prepared HTML. -/
theorem currency_guard_single_job :
    (htmlToOfficePrepared c3parse c3in).jobs = [⟨0, c3latex, false⟩]
    ∧ containsSub c3latex "x^2".data = true
    ∧ containsSub (htmlToOfficePrepared c3parse c3in).html
        "Price is $100 and math is".data = true := by
  decide

/-- Claim C4: every element in the sanitizer's output forest either has
an allow-listed tag name carrying only tag-appropriate attributes (with a
sanitized href on anchors) or sits inside a `math` subtree, for every
parsed input forest and list-item mode. -/
theorem sanitize_allowlist (nodes : List Dom) (il : Bool) :
    goodOuts (sanitizeKids nodes il) = true :=
  sanitize_good_aux (domsSize nodes) nodes il (le_refl _)

/-- Counterexample for claim C5 as stated: a one-row table whose row has
zero cells yields a `Table` with zero rows, not one (the builder drops
rows with no cells). -/
theorem parse_table_zero_cell_row :
    ¬ ((parseTable c5t0).rows.length = 1) := by decide

/-- Claim C5 (amended): for a table whose collected `tr` descendants
each contain `m ≥ 1` td/th children, `parse_table` produces exactly one
row per collected `tr`, each with exactly `m` cells, and every cell has
at least one paragraph. -/
theorem parse_table_shape (t : Dom) (m : Nat) (hm : 1 ≤ m)
    (hc : ∀ r ∈ collectTrs t, (cellNodes r).length = m) :
    (parseTable t).rows.length = (collectTrs t).length
    ∧ ∀ row ∈ (parseTable t).rows,
        row.cells.length = m
        ∧ ∀ c ∈ row.cells, 1 ≤ c.paragraphs.length := by
  have hrows : (collectTrs t).filterMap rowOf
      = (collectTrs t).map (fun tr => ⟨(cellNodes tr).map buildCell⟩) := by
    apply filterMap_eq_map_of
    intro tr htr
    unfold rowOf
    dsimp only
    rw [if_neg]
    intro hnil
    have hlen := congrArg List.length hnil
    rw [List.length_map, hc tr htr] at hlen
    simp at hlen
    omega
  constructor
  · show ((collectTrs t).filterMap rowOf).length = _
    rw [hrows, List.length_map]
  · intro row hrow
    have hrow' : row ∈ (collectTrs t).filterMap rowOf := hrow
    rw [hrows] at hrow'
    rcases List.mem_map.mp hrow' with ⟨tr, htr, rfl⟩
    refine ⟨by simp [hc tr htr], ?_⟩
    intro c hcmem
    rcases List.mem_map.mp hcmem with ⟨x, -, rfl⟩
    unfold buildCell
    dsimp only
    split_ifs with hp
    · simp
    · have := List.length_pos.mpr hp
      simpa using this

/-- Witness for claim C5 (amended) at a concrete two-by-two table. -/
theorem parse_table_shape_witness :
    (1 ≤ 2 ∧ ∀ r ∈ collectTrs c5t22, (cellNodes r).length = 2)
    ∧ ((parseTable c5t22).rows.length = (collectTrs c5t22).length
      ∧ ∀ row ∈ (parseTable c5t22).rows,
          row.cells.length = 2
          ∧ ∀ c ∈ row.cells, 1 ≤ c.paragraphs.length) :=
  ⟨⟨by decide, by decide⟩, parse_table_shape c5t22 2 (by decide) (by decide)⟩

set_option maxRecDepth 40000 in
/-- Claim C6: the nested bullet list produces exactly two list
paragraphs with `numId = 1` and `ilvl` 0 and 1; in general, a list item
walked in any surrounding list-stack takes `numId` from the innermost
marker (defaulting to bullet) and `ilvl` equal to the stack depth minus
one. -/
theorem nested_list_numbering :
    (buildBlocksFromNodes [c6dom] true =
      [.paragraph ⟨.normal, some ⟨1, 0⟩, [.text "a".data plainStyle]⟩,
       .paragraph ⟨.normal, some ⟨1, 1⟩, [.text "b".data plainStyle]⟩])
    ∧ ∀ stack : List Nat,
        (walkT liNode
          { initSt with ctx := { ctxNew with listStack := stack } }).blocks
        = [.paragraph ⟨.normal,
            some ⟨(stack.getLast?).getD 1, stack.length - 1⟩,
            [.text "x".data plainStyle]⟩] := by
  exact ⟨by decide, fun stack => rfl⟩

set_option maxRecDepth 40000 in
/-- Claim C7: consecutive link segments with the same target and style
serialize as one merged hyperlink run — merging two adjacent segments
into one never changes `paragraph_xml` output — and the concrete
two-segment paragraph contains exactly one `w:hyperlink` element. -/
theorem hyperlink_coalescing :
    (∀ (ps : ParagraphStyle) (li : Option ListInfo) (pre post : List Seg)
       (t1 t2 : List Char) (s : RunStyle) (h : List Char)
       (m : List (List Char × List Char)),
      paragraphXml
        ⟨ps, li, pre ++ Seg.linkText t1 s h :: Seg.linkText t2 s h :: post⟩ m
      = paragraphXml ⟨ps, li, pre ++ Seg.linkText (t1 ++ t2) s h :: post⟩ m)
    ∧ countSub (paragraphXml c7para c7map) "<w:hyperlink".data = 1 := by
  constructor
  · intro ps li pre post t1 t2 s h m
    unfold paragraphXml
    dsimp only
    rw [List.foldl_append, List.foldl_append, List.foldl_cons,
      List.foldl_cons, List.foldl_cons, segStep_merge]
    rfl
  · decide

/-- Claim C8 (code bug): the DOM-based CLI rejects unreadable input and
whitespace-only input, but contrary to the specification it accepts
well-formed input that produces zero paragraphs: it returns success with
an empty block list and writes the package. -/
theorem cli_zero_paragraph_accepted :
    mainModel c8parse none = .error "open failed".data
    ∧ mainModel c8parse (some "   ".data) = .error "empty html".data
    ∧ mainModel c8parse (some c8in) = .ok [] :=
  ⟨rfl, rfl, rfl⟩

set_option maxRecDepth 40000 in
/-- Counterexample for claim C9 as stated: one application of the
namespace rewrite can re-create the legacy namespace URI at a
replacement boundary, so applying the normalization twice differs from
applying it once. -/
theorem omml_normalize_not_idempotent :
    ¬ (normalizeOmmlFull (normalizeOmmlFull c9bad) = normalizeOmmlFull c9bad) := by
  decide

/-- Claim C9 (amended): the OMML namespace/case normalization is
idempotent on every string whose once-normalized form contains no
remaining occurrence of the legacy namespace URI or of a lowercase OMML
tag form. -/
theorem omml_normalize_idempotent_of_stable (s : List Char)
    (h : ∀ pat ∈ ommlNormPats, containsSub (normalizeOmmlFull s) pat = false) :
    normalizeOmmlFull (normalizeOmmlFull s) = normalizeOmmlFull s := by
  have h1 := h msOmmlNs (by simp [ommlNormPats])
  have h2 := h "<m:omathpara".data (by simp [ommlNormPats])
  have h3 := h "</m:omathpara".data (by simp [ommlNormPats])
  have h4 := h "<m:omath".data (by simp [ommlNormPats])
  have h5 := h "</m:omath".data (by simp [ommlNormPats])
  have h6 := h "<m:ssubsup".data (by simp [ommlNormPats])
  have h7 := h "</m:ssubsup".data (by simp [ommlNormPats])
  have h8 := h "<m:ssub".data (by simp [ommlNormPats])
  have h9 := h "</m:ssub".data (by simp [ommlNormPats])
  have h10 := h "<m:ssup".data (by simp [ommlNormPats])
  have h11 := h "</m:ssup".data (by simp [ommlNormPats])
  show normalizeOmmlNamespace (normalizeOmmlCase (normalizeOmmlFull s))
    = normalizeOmmlFull s
  unfold normalizeOmmlCase normalizeOmmlNamespace
  dsimp only
  rw [replaceAll_of_not_contains _ _ _ h2,
    replaceAll_of_not_contains _ _ _ h3,
    replaceAll_of_not_contains _ _ _ h4,
    replaceAll_of_not_contains _ _ _ h5,
    replaceAll_of_not_contains _ _ _ h6,
    replaceAll_of_not_contains _ _ _ h7,
    replaceAll_of_not_contains _ _ _ h8,
    replaceAll_of_not_contains _ _ _ h9,
    replaceAll_of_not_contains _ _ _ h10,
    replaceAll_of_not_contains _ _ _ h11,
    replaceAll_of_not_contains _ _ _ h1]

/-- Witness for claim C9 (amended) on a stable OMML fragment. -/
theorem omml_normalize_idempotent_witness :
    (∀ pat ∈ ommlNormPats,
      containsSub (normalizeOmmlFull c9stable) pat = false)
    ∧ normalizeOmmlFull (normalizeOmmlFull c9stable)
      = normalizeOmmlFull c9stable :=
  ⟨by decide, omml_normalize_idempotent_of_stable c9stable (by decide)⟩

/-- Claim C10: when the HTML contains no marker head,
`office_apply_mathml` returns the input unchanged regardless of the
joined MathML argument: no substitution, no diagnostic, no error. -/
theorem apply_mathml_no_marker (html joined : List Char)
    (h : containsSub html markerHead = false) :
    officeApplyMathml html joined = .ok html := by
  unfold officeApplyMathml
  rw [if_pos (by simp [h])]

/-- Witness for claim C10 at a marker-free input with a non-empty joined
argument. -/
theorem apply_mathml_no_marker_witness :
    containsSub c10html markerHead = false
    ∧ officeApplyMathml c10html ("<math><mi>q</mi></math>".data)
      = .ok c10html :=
  ⟨by decide, apply_mathml_no_marker c10html ("<math><mi>q</mi></math>".data)
    (by decide)⟩
